import Mathlib

/-!
Shallow embedding of the stacks signer run loop (stacks-signer/src/runloop.rs),
the event receiver (libsigner/src/events.rs) and the coordinator election
helper, together with theorems settling the frozen claims about them.
Bytes are modelled as lists of naturals; external collaborators (the wsts
crypto layer, the codec, SHA-256, JSON) are passed in as explicit function
arguments, as the run loop only observes their results.
-/

namespace StacksSigner

/-- Byte strings, such as block hashes, votes and wire messages. -/
abbrev Bytes := List Nat

/-- Sha512Trunc256Sum.from_bytes: succeeds exactly on 32-byte inputs. -/
def sha512Trunc256FromBytes (bs : Bytes) : Option Bytes :=
  if bs.length = 32 then some bs else none

/-- A Nakamoto block, abstracted to what the run loop observes: the result of
header.signer_signature_hash(), the transaction ids of its transactions, and
the threshold-signature field of its header. -/
structure NakamotoBlock where
  sigHash : Option Bytes
  txs : List Nat
  signerSignature : Nat
deriving DecidableEq

/-- A wsts NonceRequest, abstracted to its message field. -/
structure NonceRequest where
  message : Bytes
deriving DecidableEq

/-- A wsts SignatureShareRequest, abstracted to its message field. -/
structure SignatureShareRequest where
  message : Bytes
deriving DecidableEq

/-- BlockInfo from runloop.rs. -/
structure BlockInfo where
  block : NakamotoBlock
  vote : Option Bytes
  valid : Option Bool
  nonce_request : Option NonceRequest
  signing_round : Bool
deriving DecidableEq

/-- BlockInfo::new. -/
def BlockInfo.new (block : NakamotoBlock) : BlockInfo :=
  { block := block, vote := none, valid := none, nonce_request := none, signing_round := false }

/-- BlockInfo::new_with_request. -/
def BlockInfo.new_with_request (block : NakamotoBlock) (nonce_request : NonceRequest) :
    BlockInfo :=
  { block := block, vote := none, valid := none,
    nonce_request := some nonce_request, signing_round := true }

/-- HashMap get, on an association list keyed by hashes. -/
def mapGet {α : Type} (m : List (Bytes × α)) (key : Bytes) : Option α :=
  match m with
  | [] => none
  | (k, v) :: rest => if k = key then some v else mapGet rest key

/-- HashMap insert: replaces the value when the key is present. -/
def mapInsert {α : Type} (m : List (Bytes × α)) (key : Bytes) (v : α) :
    List (Bytes × α) :=
  match m with
  | [] => [(key, v)]
  | (k, w) :: rest => if k = key then (key, v) :: rest else (k, w) :: mapInsert rest key v

/-- HashMap remove. -/
def mapRemove {α : Type} (m : List (Bytes × α)) (key : Bytes) : List (Bytes × α) :=
  match m with
  | [] => []
  | (k, w) :: rest => if k = key then rest else (k, w) :: mapRemove rest key

/-- The RunLoop state enum. -/
inductive State where
  | uninitialized
  | idle
  | dkg
  | sign
deriving DecidableEq

/-- RunLoopCommand from runloop.rs. -/
inductive RunLoopCommand where
  | dkg
  | sign (block : NakamotoBlock) (is_taproot : Bool) (merkle_root : Option Nat)
deriving DecidableEq

/-- The run loop fields the modelled operations read and write.  The last two
fields mirror the observable getters of the embedded wsts coordinator. -/
structure RunLoopState where
  blocks : List (Bytes × BlockInfo)
  transactions : List Nat
  commands : List RunLoopCommand
  state : State
  signer_id : Nat
  aggregate_public_key : Option Nat
  coordinator_message : Bytes
deriving DecidableEq

/-- determine_vote from runloop.rs: choose the vote bytes (the 32-byte hash
for yes, the hash followed by byte 110 for no), cache them in the block info
and overwrite the nonce request message with them. -/
def determine_vote (block_info : BlockInfo) (nonce_request : NonceRequest)
    (transactions : List Nat) (hash : Bytes) : BlockInfo × NonceRequest :=
  let vote_bytes :=
    if !(block_info.valid.getD false)
        || !(transactions.all fun txid => block_info.block.txs.any fun tx => tx == txid) then
      hash ++ [110]
    else
      hash
  ({ block_info with vote := some vote_bytes },
   { nonce_request with message := vote_bytes })

/-- validate_signature_share_request from runloop.rs.  Returns the validity
verdict together with the (possibly rewritten) request. -/
def validate_signature_share_request (blocks : List (Bytes × BlockInfo))
    (request : SignatureShareRequest) : Bool × SignatureShareRequest :=
  let message_len := request.message.length
  let hash_bytes? : Option Bytes :=
    if message_len = 33 ∧ request.message.getD 32 0 = 110 then
      some (request.message.take 32)
    else if message_len = 32 then
      some request.message
    else
      none
  match hash_bytes? with
  | none => (false, request)
  | some hash_bytes =>
    match sha512Trunc256FromBytes hash_bytes with
    | none => (false, request)
    | some hash =>
      match (mapGet blocks hash).map BlockInfo.vote with
      | some (some vote) => (true, { request with message := vote })
      | some none => (false, request)
      | none => (false, request)

/-- Result of validate_nonce_request: verdict, updated state, possibly
rewritten request, and the blocks submitted to the node for validation. -/
structure NonceValidation where
  ok : Bool
  st : RunLoopState
  request : NonceRequest
  submitted : List NakamotoBlock
deriving DecidableEq

/-- validate_nonce_request from runloop.rs.  The codec read of the request
message is passed in as decodeBlock. -/
def validate_nonce_request (decodeBlock : Bytes → Option NakamotoBlock)
    (st : RunLoopState) (request : NonceRequest) : NonceValidation :=
  match decodeBlock request.message with
  | none => ⟨false, st, request, []⟩
  | some block =>
    match block.sigHash with
    | none => ⟨false, st, request, []⟩
    | some hash =>
      match mapGet st.blocks hash with
      | none =>
        ⟨false,
         { st with blocks := mapInsert st.blocks hash (BlockInfo.new_with_request block request) },
         request, [block]⟩
      | some block_info =>
        if block_info.valid.isNone then
          ⟨false,
           { st with blocks :=
               mapInsert st.blocks hash { block_info with nonce_request := some request } },
           request, []⟩
        else
          let r := determine_vote block_info request st.transactions hash
          ⟨true, { st with blocks := mapInsert st.blocks hash r.1 }, r.2, []⟩

/-- The block validation verdict pushed by the node. -/
inductive BlockValidateResponse where
  | ok (block : NakamotoBlock)
  | reject (block : NakamotoBlock)
deriving DecidableEq

/-- Observable effects of handle_block_validate_response: whether the node
rejection was forwarded to stackerdb, the blocks for which an invalid
signature hash rejection was broadcast, and the nonce request packets
synthesised into the inbound packet handler. -/
structure ValidateOut where
  rejectionSent : Bool
  hashRejections : List NakamotoBlock
  injected : List NonceRequest
deriving DecidableEq

/-- Tail of handle_block_validate_response, after the verdict has been stored
on the entry: replay a stashed nonce request, or enqueue a Sign command when
this signer coordinates a block that validated. -/
def signerAfterValid (st : RunLoopState) (hash : Bytes) (block_info : BlockInfo)
    (coordinator_id : Nat) (rejectionSent : Bool) : RunLoopState × ValidateOut :=
  match block_info.nonce_request with
  | some request =>
    let bi0 := { block_info with nonce_request := none }
    let r := determine_vote bi0 request st.transactions hash
    ({ st with blocks := mapInsert st.blocks hash r.1 },
     ⟨rejectionSent, [], [r.2]⟩)
  | none =>
    let st1 := { st with blocks := mapInsert st.blocks hash block_info }
    if block_info.valid.getD false && !block_info.signing_round
        && coordinator_id == st.signer_id then
      ({ st1 with
          commands := st1.commands ++ [RunLoopCommand.sign block_info.block false none] },
       ⟨rejectionSent, [], []⟩)
    else
      (st1, ⟨rejectionSent, [], []⟩)

/-- handle_block_validate_response from runloop.rs.  The coordinator id
computed from the chain tip is passed in. -/
def handle_block_validate_response (st : RunLoopState) (resp : BlockValidateResponse)
    (coordinator_id : Nat) : RunLoopState × ValidateOut :=
  match resp with
  | .ok block =>
    match block.sigHash with
    | none => (st, ⟨false, [block], []⟩)
    | some hash =>
      let block_info := (mapGet st.blocks hash).getD (BlockInfo.new block)
      signerAfterValid st hash { block_info with valid := some true } coordinator_id false
  | .reject block =>
    match block.sigHash with
    | none => (st, ⟨false, [block], []⟩)
    | some hash =>
      let block_info := (mapGet st.blocks hash).getD (BlockInfo.new block)
      signerAfterValid st hash { block_info with valid := some false } coordinator_id true

/-- Observable effects of handle_proposed_blocks: the blocks submitted for
validation and the blocks whose hash derivation failed. -/
structure ProposedOut where
  submitted : List NakamotoBlock
  hashRejections : List NakamotoBlock
deriving DecidableEq

/-- handle_proposed_blocks from runloop.rs: insert a fresh BlockInfo for every
proposed block and submit each one to the node for validation. -/
def handle_proposed_blocks : RunLoopState → List NakamotoBlock → RunLoopState × ProposedOut
  | st, [] => (st, ⟨[], []⟩)
  | st, block :: rest =>
    match block.sigHash with
    | none =>
      let r := handle_proposed_blocks st rest
      (r.1, ⟨r.2.submitted, block :: r.2.hashRejections⟩)
    | some hash =>
      let st1 := { st with blocks := mapInsert st.blocks hash (BlockInfo.new block) }
      let r := handle_proposed_blocks st1 rest
      (r.1, ⟨block :: r.2.submitted, r.2.hashRejections⟩)

/-- Results of the external wsts coordinator calls made by execute_command.
The claims about the retry loop hypothesise calls that deterministically fail,
so the oracle is a fixed per-call outcome. -/
structure CryptoOracle where
  startDkgRound : Option Nat
  startSigningRound : Option Nat

/-- execute_command from runloop.rs, returning the updated state and whether
the command was successfully executed. -/
def execute_command (o : CryptoOracle) (st : RunLoopState) (command : RunLoopCommand) :
    RunLoopState × Bool :=
  match command with
  | .dkg =>
    match o.startDkgRound with
    | some _msg => ({ st with state := State.dkg }, true)
    | none => (st, false)
  | .sign block _is_taproot _merkle_root =>
    match block.sigHash with
    | none => (st, false)
    | some hash =>
      let block_info := (mapGet st.blocks hash).getD (BlockInfo.new block)
      let st1 := { st with blocks := mapInsert st.blocks hash block_info }
      if block_info.signing_round then
        (st1, false)
      else
        match o.startSigningRound with
        | some _msg =>
          ({ st1 with
              state := State.sign,
              blocks := mapInsert st1.blocks hash { block_info with signing_round := true } },
           true)
        | none => (st1, false)

/-- The in-place retry loop of process_next_command, with explicit fuel: none
means the loop was still spinning after the given number of attempts. -/
def retry_execute (o : CryptoOracle) (command : RunLoopCommand) :
    Nat → RunLoopState → Option RunLoopState
  | 0, _ => none
  | fuel + 1, st =>
    let r := execute_command o st command
    if r.2 then some r.1 else retry_execute o command fuel r.1

/-- process_next_command from runloop.rs, with explicit fuel for the retry
loop. -/
def process_next_command_fuel (o : CryptoOracle) (fuel : Nat) (st : RunLoopState) :
    Option RunLoopState :=
  match st.state with
  | State.idle =>
    match st.commands with
    | [] => some st
    | command :: rest => retry_execute o command fuel { st with commands := rest }
  | _ => some st

/-- Reason codes attached to block rejections. -/
inductive RejectCode where
  | validationFailed
  | signedRejection
  | invalidSignatureHash
  | insufficientSigners (ids : List Nat)
deriving DecidableEq

/-- A block response published to the miners via stackerdb slot 10. -/
inductive BlockSubmission where
  | accepted (block : NakamotoBlock)
  | rejected (block : NakamotoBlock) (code : RejectCode)
deriving DecidableEq

/-- process_signature from runloop.rs: the signature verification call into
the crypto library is passed in as sigVerify (signature, key, message). -/
def process_signature (sigVerify : Nat → Nat → Bytes → Bool) (signature : Nat)
    (st : RunLoopState) : RunLoopState × Option BlockSubmission :=
  match st.aggregate_public_key with
  | none => (st, none)
  | some aggregate_public_key =>
    let message := st.coordinator_message
    let block_hash_bytes := if 32 < message.length then message.take 32 else message
    match sha512Trunc256FromBytes block_hash_bytes with
    | none => (st, none)
    | some block_hash =>
      match mapGet st.blocks block_hash with
      | none => (st, none)
      | some block_info =>
        let st1 := { st with blocks := mapRemove st.blocks block_hash }
        if !(sigVerify signature aggregate_public_key message) then
          (st1, none)
        else
          let block := { block_info.block with signerSignature := signature }
          if message = block_hash then
            (st1, some (BlockSubmission.accepted block))
          else
            (st1, some (BlockSubmission.rejected block RejectCode.signedRejection))

/-- A qualified stackerdb contract identifier: full identity plus name part. -/
structure ContractId where
  id : Nat
  name : Nat
deriving DecidableEq

/-- One modified stackerdb slot carried by a chunks event. -/
structure StackerDBChunk where
  data : Bytes
deriving DecidableEq

/-- The JSON payload of a stackerdb_chunks POST. -/
structure StackerDBChunksEvent where
  contract_id : ContractId
  modified_slots : List StackerDBChunk
deriving DecidableEq

/-- Errors surfaced by the event receiver. -/
inductive EventError where
  | malformedRequest
  | deserializeError
  | unrecognizedStackerDBContract (c : ContractId)
deriving DecidableEq

/-- Typed events emitted by the event receiver.  Signer messages are opaque to
the receiver model. -/
inductive SignerEvent where
  | proposedBlocks (blocks : List NakamotoBlock)
  | signerMessages (messages : List Nat)
  | blockValidationResponse (resp : BlockValidateResponse)
deriving DecidableEq

/-- An accepted POST, abstracted to the outcome of reading its body into a
string: none models a body read failure. -/
structure HttpRequest where
  bodyRead : Option Bytes
deriving DecidableEq

/-- process_stackerdb_event from events.rs.  The first component of the result
lists the HTTP status codes of the responses sent on the request before
returning; the JSON and codec decoders are passed in. -/
def process_stackerdb_event (minersContract : ContractId) (signersName : Nat)
    (decodeJsonEvent : Bytes → Option StackerDBChunksEvent)
    (decodeBlock : Bytes → Option NakamotoBlock)
    (decodeSignerMessage : Bytes → Option Nat)
    (request : HttpRequest) : List Nat × Except EventError SignerEvent :=
  match request.bodyRead with
  | none => ([200], Except.error EventError.malformedRequest)
  | some body =>
    match decodeJsonEvent body with
    | none => ([], Except.error EventError.deserializeError)
    | some event =>
      if event.contract_id = minersContract then
        ([200], Except.ok (SignerEvent.proposedBlocks
          (event.modified_slots.filterMap fun chunk => decodeBlock chunk.data)))
      else if event.contract_id.name = signersName then
        ([200], Except.ok (SignerEvent.signerMessages
          (event.modified_slots.filterMap fun chunk => decodeSignerMessage chunk.data)))
      else
        ([200], Except.error (EventError.unrecognizedStackerDBContract event.contract_id))

/-- process_proposal_response from events.rs, with the same conventions as
process_stackerdb_event. -/
def process_proposal_response (decodeJsonResponse : Bytes → Option BlockValidateResponse)
    (request : HttpRequest) : List Nat × Except EventError SignerEvent :=
  match request.bodyRead with
  | none => ([200], Except.error EventError.malformedRequest)
  | some body =>
    match decodeJsonResponse body with
    | none => ([], Except.error EventError.deserializeError)
    | some event => ([200], Except.ok (SignerEvent.blockValidationResponse event))

/-- Lexicographic order on byte strings, as the Rust Ord instance of byte
vectors used by sort_by_key. -/
def bytesLe : Bytes → Bytes → Bool
  | [], _ => true
  | _ :: _, [] => false
  | a :: as, b :: bs => if a < b then true else if b < a then false else bytesLe as bs

/-- Insert a keyed entry into a list sorted ascending by key. -/
def insertSorted (x : Bytes × Nat) : List (Bytes × Nat) → List (Bytes × Nat)
  | [] => [x]
  | y :: ys => if bytesLe x.1 y.1 then x :: y :: ys else y :: insertSorted x ys

/-- Sort ascending by key, as sort_by_key on the selection ids.  Ties between
equal digests are resolved in an implementation defined order, as in the
original. -/
def sortByKey (l : List (Bytes × Nat)) : List (Bytes × Nat) :=
  l.foldr insertSorted []

/-- HashMap get on signer ids. -/
def lookupK {α : Type} (m : List (Nat × α)) (key : Nat) : Option α :=
  match m with
  | [] => none
  | (k, v) :: rest => if k = key then some v else lookupK rest key

/-- calculate_coordinator from runloop.rs.  The SHA-256 call and the key
serialisation are passed in; the consensus hash argument is the result of the
chain tip RPC, none modelling its failure.  none as overall result models a
panic of the original on the unwrap of the signer 0 lookup; note that the
unwrap_or argument of the original is evaluated eagerly, so the lookup of
signer 0 happens on every path through the RPC success branch. -/
def calculate_coordinator (sha256 : Bytes → Bytes) (pkBytes : Nat → Bytes)
    (signers : List (Nat × Nat)) (consensusHash : Option Bytes) : Option (Nat × Nat) :=
  match consensusHash with
  | none => (lookupK signers 0).map fun pk => (0, pk)
  | some hashBytes =>
    let selection_ids :=
      sortByKey (signers.map fun p => (sha256 (pkBytes p.2 ++ hashBytes), p.1))
    match lookupK signers 0 with
    | none => none
    | some pk0 =>
      match selection_ids.head? with
      | none => some (0, pk0)
      | some (_, id) =>
        match lookupK signers id with
        | none => some (0, pk0)
        | some pk => some (id, pk)

/-- One run loop operation, as dispatched by run_one_pass: a proposed blocks
event, a validation response event (carrying the coordinator id computed from
the chain tip), or a cryptographically verified wsts request packet arriving
through a signer messages event. -/
inductive Op where
  | proposedBlocks (blocks : List NakamotoBlock)
  | validationResponse (resp : BlockValidateResponse) (coordinator_id : Nat)
  | nonceRequestPacket (request : NonceRequest)
  | signatureShareRequestPacket (request : SignatureShareRequest)
deriving DecidableEq

/-- Apply one operation to the run loop state, returning the blocks submitted
to the node for validation by that operation. -/
def stepOp (decodeBlock : Bytes → Option NakamotoBlock) (st : RunLoopState) :
    Op → RunLoopState × List NakamotoBlock
  | .proposedBlocks blocks =>
    let r := handle_proposed_blocks st blocks
    (r.1, r.2.submitted)
  | .validationResponse resp coordinator_id =>
    let r := handle_block_validate_response st resp coordinator_id
    (r.1, [])
  | .nonceRequestPacket request =>
    let v := validate_nonce_request decodeBlock st request
    (v.st, v.submitted)
  | .signatureShareRequestPacket _request => (st, [])

/-- Run a sequence of operations, accumulating all validation submissions. -/
def runOps (decodeBlock : Bytes → Option NakamotoBlock) :
    RunLoopState → List Op → RunLoopState × List NakamotoBlock
  | st, [] => (st, [])
  | st, op :: rest =>
    let r := stepOp decodeBlock st op
    let r2 := runOps decodeBlock r.1 rest
    (r2.1, r.2 ++ r2.2)

/-- A vote has been recorded for the given hash bytes. -/
def voteRecorded (blocks : List (Bytes × BlockInfo)) (hashBytes : Bytes) : Prop :=
  ∃ bi v, mapGet blocks hashBytes = some bi ∧ bi.vote = some v

/-- A concrete 32-byte signer signature hash. -/
def hC : Bytes := List.replicate 32 0

/-- A concrete block whose signer signature hash is hC. -/
def bC : NakamotoBlock := { sigHash := some hC, txs := [], signerSignature := 0 }

/-- A concrete codec: the byte string 9 decodes to bC, nothing else decodes. -/
def decodeBlockC : Bytes → Option NakamotoBlock :=
  fun m => if m = [9] then some bC else none

/-- A concrete nonce request whose message decodes to bC. -/
def reqC : NonceRequest := { message := [9] }

/-- The initial run loop state of the concrete scenarios, already idle. -/
def st0 : RunLoopState :=
  { blocks := [], transactions := [], commands := [], state := State.idle,
    signer_id := 0, aggregate_public_key := none, coordinator_message := [] }

/-- First half of the vote rewrite scenario: propose bC, receive a positive
validation verdict, answer a nonce request, which records a yes vote. -/
def opsFirstVote : List Op :=
  [Op.proposedBlocks [bC],
   Op.validationResponse (BlockValidateResponse.ok bC) 1,
   Op.nonceRequestPacket reqC]

/-- Full vote rewrite scenario: after the yes vote, the same block is proposed
again (resetting its BlockInfo), a rejecting verdict arrives, and a second
nonce request records a no vote for the same hash. -/
def opsSecondVote : List Op :=
  opsFirstVote ++
  [Op.proposedBlocks [bC],
   Op.validationResponse (BlockValidateResponse.reject bC) 1,
   Op.nonceRequestPacket reqC]

/-- A block info for bC carrying a recorded yes vote. -/
def biVotedC : BlockInfo :=
  { BlockInfo.new bC with vote := some hC, valid := some true }

/-- A one-entry block table with a recorded vote for hC. -/
def blocksVotedC : List (Bytes × BlockInfo) := [(hC, biVotedC)]

/-- A 33-byte signature share request whose last byte is 0, not 110. -/
def req33C : SignatureShareRequest := { message := hC ++ [0] }

/-- A 32-byte signature share request carrying exactly hC. -/
def req32C : SignatureShareRequest := { message := hC }

/-- A block info for bC whose valid field is still unset. -/
def stKnownC : RunLoopState := { st0 with blocks := [(hC, BlockInfo.new bC)] }

/-- A block info for bC with a stashed nonce request. -/
def biStashC : BlockInfo := BlockInfo.new_with_request bC reqC

/-- A state whose block table stashes a nonce request for hC. -/
def stStashC : RunLoopState := { st0 with blocks := [(hC, biStashC)] }

/-- A valid-block state ready for process_signature over message hC. -/
def stSigC : RunLoopState :=
  { st0 with
    blocks := blocksVotedC
    aggregate_public_key := some 1
    coordinator_message := hC }

/-- A concrete signature verifier: only the signature 1 verifies. -/
def sigVerifyC : Nat → Nat → Bytes → Bool := fun s _k _m => s == 1

/-- A block info for bC already marked as being signed over. -/
def biSignedC : BlockInfo := { BlockInfo.new bC with signing_round := true }

/-- A state whose queued Sign command targets a block already being signed. -/
def stRetryC : RunLoopState :=
  { st0 with
    blocks := [(hC, biSignedC)]
    commands := [RunLoopCommand.sign bC false none] }

/-- A crypto oracle on which every round start deterministically fails. -/
def oNoneC : CryptoOracle := { startDkgRound := none, startSigningRound := none }

/-- A concrete miners contract identity. -/
def cidC : ContractId := { id := 0, name := 0 }

/-- A POST whose body reads fine as a string. -/
def reqBodyC : HttpRequest := { bodyRead := some [1, 2] }

/-- A POST whose body read fails. -/
def reqBadReadC : HttpRequest := { bodyRead := none }

/-- A decoder that always fails, modelling undecodable payloads. -/
def decodeNone {α : Type} : Bytes → Option α := fun _ => none

/-- A concrete stand-in for SHA-256 in coordinator election scenarios. -/
def shaC : Bytes → Bytes := fun bs => bs

/-- A concrete key serialisation for coordinator election scenarios. -/
def pkBytesC : Nat → Bytes := fun pk => [pk]

/-- A concrete signer key map for coordinator election scenarios. -/
def signersC : List (Nat × Nat) := [(0, 5), (1, 7)]

/-- A concrete consensus hash for coordinator election scenarios. -/
def chC : Bytes := [3]

/-- Looking up the key just inserted gives the inserted value. -/
theorem mapGet_mapInsert_self {α : Type} (m : List (Bytes × α)) (k : Bytes) (v : α) :
    mapGet (mapInsert m k v) k = some v := by
  induction m with
  | nil => simp [mapInsert, mapGet]
  | cons p rest ih =>
    obtain ⟨k', w⟩ := p
    by_cases h : k' = k
    · simp [mapInsert, h, mapGet]
    · simp [mapInsert, h, mapGet, ih]

/-- A key absent from the key column is not found. -/
theorem mapGet_eq_none_of_not_mem {α : Type} (m : List (Bytes × α)) (k : Bytes)
    (h : k ∉ m.map Prod.fst) : mapGet m k = none := by
  induction m with
  | nil => rfl
  | cons p rest ih =>
    obtain ⟨k', w⟩ := p
    simp only [List.map_cons, List.mem_cons, not_or] at h
    have hk : k' ≠ k := fun hh => h.1 hh.symm
    simp [mapGet, hk, ih h.2]

/-- On a table with pairwise distinct keys, removal makes a key unfindable. -/
theorem mapGet_mapRemove_self {α : Type} (m : List (Bytes × α)) (k : Bytes)
    (hnd : (m.map Prod.fst).Nodup) : mapGet (mapRemove m k) k = none := by
  induction m with
  | nil => rfl
  | cons p rest ih =>
    obtain ⟨k', w⟩ := p
    simp only [List.map_cons, List.nodup_cons] at hnd
    by_cases hk : k' = k
    · subst hk
      simpa [mapRemove] using mapGet_eq_none_of_not_mem rest k' hnd.1
    · simp [mapRemove, hk, mapGet, ih hnd.2]

/-- The byte string order is reflexive. -/
theorem bytesLe_refl (a : Bytes) : bytesLe a a = true := by
  induction a with
  | nil => rfl
  | cons x xs ih => simp [bytesLe, ih]

/-- The byte string order is total. -/
theorem bytesLe_total (a b : Bytes) : bytesLe a b = true ∨ bytesLe b a = true := by
  induction a generalizing b with
  | nil => left; rfl
  | cons x xs ih =>
    cases b with
    | nil => right; rfl
    | cons y ys =>
      rcases lt_trichotomy x y with h | h | h
      · left; simp [bytesLe, h]
      · subst h
        rcases ih ys with h2 | h2
        · left; simp [bytesLe, h2]
        · right; simp [bytesLe, h2]
      · right; simp [bytesLe, h]

/-- The byte string order is transitive. -/
theorem bytesLe_trans : ∀ {a b c : Bytes},
    bytesLe a b = true → bytesLe b c = true → bytesLe a c = true := by
  intro a
  induction a with
  | nil => intro b c _ _; rfl
  | cons x xs ih =>
    intro b c h1 h2
    cases b with
    | nil => simp [bytesLe] at h1
    | cons y ys =>
      cases c with
      | nil => simp [bytesLe] at h2
      | cons z zs =>
        simp only [bytesLe] at h1 h2 ⊢
        rcases lt_trichotomy x y with hxy | hxy | hxy
        · rcases lt_trichotomy y z with hyz | hyz | hyz
          · simp [lt_trans hxy hyz]
          · subst hyz; simp [hxy]
          · have hyz' : ¬ y < z := by omega
            simp [hyz', hyz] at h2
        · subst hxy
          rcases lt_trichotomy x z with hxz | hxz | hxz
          · simp [hxz]
          · subst hxz
            simp only [lt_irrefl, if_false] at h1 h2 ⊢
            exact ih h1 h2
          · have hxz' : ¬ x < z := by omega
            simp [hxz', hxz] at h2
        · have hxy' : ¬ x < y := by omega
          simp [hxy', hxy] at h1

/-- Insertion never produces the empty list. -/
theorem insertSorted_ne_nil (x : Bytes × Nat) (l : List (Bytes × Nat)) :
    insertSorted x l ≠ [] := by
  cases l with
  | nil => simp [insertSorted]
  | cons y ys =>
    simp only [insertSorted]
    split <;> simp

/-- Membership across insertion. -/
theorem mem_insertSorted {x p : Bytes × Nat} : ∀ {l : List (Bytes × Nat)},
    p ∈ insertSorted x l ↔ p = x ∨ p ∈ l := by
  intro l
  induction l with
  | nil => simp [insertSorted]
  | cons y ys ih =>
    simp only [insertSorted]
    by_cases h : bytesLe x.1 y.1 = true
    · rw [if_pos h]
      exact List.mem_cons
    · rw [if_neg h]
      simp only [List.mem_cons, ih]
      tauto

/-- Sorting sends the empty list exactly to the empty list. -/
theorem sortByKey_eq_nil_iff {l : List (Bytes × Nat)} : sortByKey l = [] ↔ l = [] := by
  cases l with
  | nil => simp [sortByKey]
  | cons a l' =>
    simp only [sortByKey, List.foldr]
    constructor
    · intro h
      exact absurd h (insertSorted_ne_nil a _)
    · intro h
      exact absurd h (List.cons_ne_nil a l')

/-- Membership is preserved by sorting. -/
theorem mem_sortByKey {p : Bytes × Nat} : ∀ {l : List (Bytes × Nat)},
    p ∈ sortByKey l ↔ p ∈ l := by
  intro l
  induction l with
  | nil => simp [sortByKey]
  | cons a l' ih =>
    simp only [sortByKey, List.foldr] at ih ⊢
    rw [mem_insertSorted]
    simp [ih]

/-- The head of the sorted list carries a minimal key. -/
theorem sortByKey_head_le : ∀ (l : List (Bytes × Nat)) (x : Bytes × Nat)
    (t : List (Bytes × Nat)), sortByKey l = x :: t →
    ∀ p ∈ l, bytesLe x.1 p.1 = true := by
  intro l
  induction l with
  | nil => intro x t h; simp [sortByKey] at h
  | cons a l' ih =>
    intro x t h p hp
    have h' : insertSorted a (sortByKey l') = x :: t := h
    cases hs : sortByKey l' with
    | nil =>
      rw [hs] at h'
      simp only [insertSorted] at h'
      injection h' with h1 h2
      have hl' : l' = [] := sortByKey_eq_nil_iff.mp hs
      subst hl'
      rcases List.mem_cons.mp hp with hpa | hpl
      · subst hpa; rw [← h1]; exact bytesLe_refl _
      · cases hpl
    | cons y ys =>
      rw [hs] at h'
      simp only [insertSorted] at h'
      by_cases hb : bytesLe a.1 y.1 = true
      · rw [if_pos hb] at h'
        injection h' with h1 h2
        rcases List.mem_cons.mp hp with hpa | hpl
        · subst hpa; rw [← h1]; exact bytesLe_refl _
        · have hyp := ih y ys hs p hpl
          rw [← h1]
          exact bytesLe_trans hb hyp
      · rw [if_neg hb] at h'
        injection h' with h1 h2
        rcases List.mem_cons.mp hp with hpa | hpl
        · subst hpa
          have hya := (bytesLe_total p.1 y.1).resolve_left hb
          rw [← h1]
          exact hya
        · have hyp := ih y ys hs p hpl
          rw [← h1]
          exact hyp

/-- Lookup of a member key on a table with pairwise distinct keys. -/
theorem lookupK_eq_some_of_mem {α : Type} : ∀ {m : List (Nat × α)} {k : Nat} {v : α},
    (k, v) ∈ m → (m.map Prod.fst).Nodup → lookupK m k = some v := by
  intro m
  induction m with
  | nil => intro k v hmem _; cases hmem
  | cons p rest ih =>
    intro k v hmem hnd
    obtain ⟨k', w⟩ := p
    simp only [List.map_cons, List.nodup_cons] at hnd
    rcases List.mem_cons.mp hmem with h | h
    · have hk : k' = k := (congrArg Prod.fst h).symm
      have hv : w = v := (congrArg Prod.snd h).symm
      simp [lookupK, hk, hv]
    · by_cases hk : k' = k
      · subst hk
        have : k' ∈ rest.map Prod.fst := by
          simpa using List.mem_map_of_mem Prod.fst h
        exact absurd this hnd.1
      · simp [lookupK, hk, ih h hnd.2]

/-- unwrap_or false on an optional boolean is true exactly on some true. -/
theorem getD_false_eq_true_iff (o : Option Bool) : o.getD false = true ↔ o = some true := by
  cases o <;> simp

/-- The transaction containment check of determine_vote, in logical form. -/
theorem txs_all_iff (bi : BlockInfo) (txs : List Nat) :
    (txs.all fun txid => bi.block.txs.any fun tx => tx == txid) = true ↔
      ∀ t ∈ txs, t ∈ bi.block.txs := by
  simp [List.all_eq_true, List.any_eq_true, beq_iff_eq]

/-- Field by field description of determine_vote: the vote cache and the
request message receive the same bytes, the other fields are untouched, and
the bytes are the bare hash exactly when the block validated and carries every
expected transaction. -/
theorem determine_vote_message (bi : BlockInfo) (req : NonceRequest) (txs : List Nat)
    (h : Bytes) :
    ((determine_vote bi req txs h).1).vote = some ((determine_vote bi req txs h).2).message ∧
    ((determine_vote bi req txs h).1).block = bi.block ∧
    ((determine_vote bi req txs h).1).valid = bi.valid ∧
    ((determine_vote bi req txs h).1).nonce_request = bi.nonce_request ∧
    ((determine_vote bi req txs h).2).message =
      (if bi.valid = some true ∧ ∀ t ∈ txs, t ∈ bi.block.txs then h else h ++ [110]) := by
  refine ⟨rfl, rfl, rfl, rfl, ?_⟩
  by_cases hcond : bi.valid = some true ∧ ∀ t ∈ txs, t ∈ bi.block.txs
  · rw [if_pos hcond]
    have h1 : bi.valid.getD false = true := (getD_false_eq_true_iff _).mpr hcond.1
    have h2 : (txs.all fun txid => bi.block.txs.any fun tx => tx == txid) = true :=
      (txs_all_iff bi txs).mpr hcond.2
    simp [determine_vote, h1, h2]
  · rw [if_neg hcond]
    by_cases h1 : bi.valid.getD false = true
    · have h2 : (txs.all fun txid => bi.block.txs.any fun tx => tx == txid) = false := by
        rw [← Bool.not_eq_true]
        intro h2
        exact hcond ⟨(getD_false_eq_true_iff _).mp h1, (txs_all_iff bi txs).mp h2⟩
      simp [determine_vote, h1, h2]
    · rw [Bool.not_eq_true] at h1
      simp [determine_vote, h1]

/-- When the length checks select hash bytes, the request validation reduces
to the vote lookup on those bytes. -/
theorem validate_sig_share_lookup (blocks : List (Bytes × BlockInfo))
    (req : SignatureShareRequest) (hb : Bytes)
    (hlen : hb.length = 32)
    (hsel : (if req.message.length = 33 ∧ req.message.getD 32 0 = 110 then
               some (req.message.take 32)
             else if req.message.length = 32 then some req.message else none) = some hb) :
    validate_signature_share_request blocks req =
      match (mapGet blocks hb).map BlockInfo.vote with
      | some (some vote) => (true, { req with message := vote })
      | some none => (false, req)
      | none => (false, req) := by
  simp only [validate_signature_share_request]
  rw [hsel]
  simp [sha512Trunc256FromBytes, hlen]

/-- When neither length check selects hash bytes, the request is rejected. -/
theorem validate_sig_share_reject (blocks : List (Bytes × BlockInfo))
    (req : SignatureShareRequest)
    (h33 : ¬(req.message.length = 33 ∧ req.message.getD 32 0 = 110))
    (h32 : ¬ req.message.length = 32) :
    validate_signature_share_request blocks req = (false, req) := by
  simp only [validate_signature_share_request]
  rw [if_neg h33, if_neg h32]

/-- Claim C5: determine_vote sets both the cached vote and the nonce request
message to the 32 byte signer signature hash (vote yes) if and only if the
verdict is some true and every expected transaction id occurs in the block
transaction list; in every other case it sets both to the hash followed by
the single byte 110 (vote no). -/
theorem determine_vote_spec (bi : BlockInfo) (req : NonceRequest) (txs : List Nat)
    (h : Bytes) :
    ((determine_vote bi req txs h).1).vote = some ((determine_vote bi req txs h).2).message ∧
    ((determine_vote bi req txs h).2).message =
      (if bi.valid = some true ∧ ∀ t ∈ txs, t ∈ bi.block.txs then h else h ++ [110]) ∧
    (((determine_vote bi req txs h).2).message = h ↔
      (bi.valid = some true ∧ ∀ t ∈ txs, t ∈ bi.block.txs)) := by
  obtain ⟨hv, -, -, -, hm⟩ := determine_vote_message bi req txs h
  refine ⟨hv, hm, ?_⟩
  rw [hm]
  by_cases hcond : bi.valid = some true ∧ ∀ t ∈ txs, t ∈ bi.block.txs
  · simp [hcond]
  · rw [if_neg hcond]
    constructor
    · intro heq
      exfalso
      have hlen := congrArg List.length heq
      simp at hlen
    · intro hc
      exact absurd hc hcond

/-- Witness for determine_vote_spec: a concrete yes vote and a concrete no
vote. -/
theorem determine_vote_spec_witness :
    ((determine_vote biVotedC reqC [] hC).2).message = hC ∧
    ((determine_vote (BlockInfo.new bC) reqC [] hC).2).message = hC ++ [110] := by
  constructor
  · rw [(determine_vote_spec biVotedC reqC [] hC).2.1]
    decide
  · rw [(determine_vote_spec (BlockInfo.new bC) reqC [] hC).2.1]
    decide

/-- Claim C4 (counterexample): two ProposedBlocks events carrying the same
block lead to two validation submissions for the same hash. -/
theorem duplicate_proposal_resubmits :
    (runOps decodeBlockC st0 [Op.proposedBlocks [bC], Op.proposedBlocks [bC]]).2
      = [bC, bC] ∧ bC.sigHash = some hC :=
  ⟨rfl, rfl⟩

/-- Claim C4 (amended): handle_proposed_blocks submits every proposed block
whose hash derives, once per occurrence, with no per hash deduplication. -/
theorem proposed_blocks_submitted_eq_filter (st : RunLoopState) (bs : List NakamotoBlock) :
    ((handle_proposed_blocks st bs).2).submitted
      = bs.filter fun b => b.sigHash.isSome := by
  induction bs generalizing st with
  | nil => rfl
  | cons b rest ih =>
    cases hb : b.sigHash with
    | none => simp [handle_proposed_blocks, hb, ih]
    | some h => simp [handle_proposed_blocks, hb, ih]

/-- Claim C1 (counterexample): a run in which the hash hC first carries a yes
vote and, after the same block is proposed again and rejected, carries a
different no vote for the same hash. -/
theorem vote_rewritten_after_reproposal :
    ((mapGet ((runOps decodeBlockC st0 opsFirstVote).1).blocks hC).map BlockInfo.vote
        = some (some hC)) ∧
    ((mapGet ((runOps decodeBlockC st0 opsSecondVote).1).blocks hC).map BlockInfo.vote
        = some (some (hC ++ [110]))) ∧
    hC ≠ hC ++ [110] := by
  refine ⟨rfl, rfl, by decide⟩

/-- Claim C1 (amended): every signature share request that survives validation
has its message overwritten with exactly the vote bytes currently stored for
the block entry looked up by the referenced 32 byte prefix of its message. -/
theorem signature_share_echoes_stored_vote (blocks : List (Bytes × BlockInfo))
    (req : SignatureShareRequest)
    (hok : (validate_signature_share_request blocks req).1 = true) :
    ∃ bi, mapGet blocks (req.message.take 32) = some bi ∧
      bi.vote = some ((validate_signature_share_request blocks req).2).message := by
  by_cases h33 : req.message.length = 33 ∧ req.message.getD 32 0 = 110
  · have hlen : (req.message.take 32).length = 32 := by
      simp [List.length_take, h33.1]
    have heq := validate_sig_share_lookup blocks req (req.message.take 32) hlen
      (by rw [if_pos h33])
    rw [heq] at hok ⊢
    cases hm : mapGet blocks (req.message.take 32) with
    | none => rw [hm] at hok; simp at hok
    | some bi =>
      cases hv : bi.vote with
      | none => rw [hm] at hok; simp [hv] at hok
      | some v =>
        refine ⟨bi, rfl, ?_⟩
        simp [hv]
  · by_cases h32 : req.message.length = 32
    · have htake : req.message.take 32 = req.message :=
        List.take_of_length_le (by rw [h32])
      have heq := validate_sig_share_lookup blocks req req.message h32
        (by rw [if_neg h33, if_pos h32])
      rw [heq] at hok ⊢
      rw [htake]
      cases hm : mapGet blocks req.message with
      | none => rw [hm] at hok; simp at hok
      | some bi =>
        cases hv : bi.vote with
        | none => rw [hm] at hok; simp [hv] at hok
        | some v =>
          refine ⟨bi, rfl, ?_⟩
          simp [hv]
    · rw [validate_sig_share_reject blocks req h33 h32] at hok
      simp at hok

/-- Witness for signature_share_echoes_stored_vote at a concrete accepted
request. -/
theorem signature_share_echoes_stored_vote_witness :
    ∃ bi, mapGet blocksVotedC (req32C.message.take 32) = some bi ∧
      bi.vote = some ((validate_signature_share_request blocksVotedC req32C).2).message :=
  signature_share_echoes_stored_vote blocksVotedC req32C (by decide)

/-- Claim C2 (counterexample): a 33 byte message whose last byte is 0 refers
to a block with a recorded vote, yet the request is rejected, not accepted. -/
theorem thirty_three_byte_message_rejected :
    req33C.message.length = 33 ∧
    voteRecorded blocksVotedC (req33C.message.take 32) ∧
    (validate_signature_share_request blocksVotedC req33C).1 = false := by
  refine ⟨by decide, ⟨biVotedC, hC, by decide, by decide⟩, by decide⟩

/-- Claim C2 (amended): a signature share request is accepted iff its message
is either exactly 32 bytes, or 33 bytes ending in the byte 110, and a vote is
recorded for the 32 byte prefix; every other message is rejected. -/
theorem signature_share_acceptance_iff (blocks : List (Bytes × BlockInfo))
    (req : SignatureShareRequest) :
    (validate_signature_share_request blocks req).1 = true ↔
      ((req.message.length = 32 ∧ voteRecorded blocks req.message) ∨
       (req.message.length = 33 ∧ req.message.getD 32 0 = 110 ∧
         voteRecorded blocks (req.message.take 32))) := by
  by_cases h33 : req.message.length = 33 ∧ req.message.getD 32 0 = 110
  · have hlen : (req.message.take 32).length = 32 := by
      simp [List.length_take, h33.1]
    rw [validate_sig_share_lookup blocks req (req.message.take 32) hlen
      (by rw [if_pos h33])]
    cases hm : mapGet blocks (req.message.take 32) with
    | none => simp [hm, voteRecorded, h33.1, h33.2]
    | some bi =>
      cases hv : bi.vote with
      | none => simp [hm, hv, voteRecorded, h33.1, h33.2]
      | some v =>
        constructor
        · intro _
          refine Or.inr ⟨h33.1, h33.2, ?_⟩
          exact ⟨bi, v, hm, hv⟩
        · intro _
          simp [hv]
  · by_cases h32 : req.message.length = 32
    · rw [validate_sig_share_lookup blocks req req.message h32
        (by rw [if_neg h33, if_pos h32])]
      cases hm : mapGet blocks req.message with
      | none => simp [hm, voteRecorded, h32]
      | some bi =>
        cases hv : bi.vote with
        | none => simp [hm, hv, voteRecorded, h32]
        | some v =>
          constructor
          · intro _
            refine Or.inl ⟨h32, ?_⟩
            exact ⟨bi, v, hm, hv⟩
          · intro _
            simp [hv]
    · rw [validate_sig_share_reject blocks req h33 h32]
      constructor
      · intro hf
        simp at hf
      · rintro (⟨hl, -⟩ | ⟨hl, hbyte, -⟩)
        · exact absurd hl h32
        · exact absurd ⟨hl, hbyte⟩ h33

/-- Witness for signature_share_acceptance_iff: a concrete 32 byte request
over a recorded vote is accepted. -/
theorem signature_share_acceptance_iff_witness :
    (validate_signature_share_request blocksVotedC req32C).1 = true :=
  (signature_share_acceptance_iff blocksVotedC req32C).mpr
    (Or.inl ⟨by decide, biVotedC, hC, by decide, by decide⟩)

/-- Claim C6: a nonce request arriving before the validation verdict is
stashed and reported invalid, so no outbound packet is emitted for it (for an
unknown block the block is also submitted for validation); when the verdict
later arrives, whether Ok or Reject, the stashed request is taken, the vote
is determined, and exactly one synthesised NonceRequest packet is injected
into the inbound packet handler. -/
theorem nonce_request_stash_and_replay (d : Bytes → Option NakamotoBlock)
    (st : RunLoopState) (req : NonceRequest) (b : NakamotoBlock) (h : Bytes)
    (bi : BlockInfo) (cid : Nat) :
    ((d req.message = some b → b.sigHash = some h → mapGet st.blocks h = none →
        (validate_nonce_request d st req).ok = false ∧
        (validate_nonce_request d st req).submitted = [b] ∧
        mapGet ((validate_nonce_request d st req).st).blocks h
          = some (BlockInfo.new_with_request b req) ∧
        (BlockInfo.new_with_request b req).nonce_request = some req ∧
        (BlockInfo.new_with_request b req).signing_round = true) ∧
     (d req.message = some b → b.sigHash = some h → mapGet st.blocks h = some bi →
        bi.valid = none →
        (validate_nonce_request d st req).ok = false ∧
        (validate_nonce_request d st req).submitted = [] ∧
        mapGet ((validate_nonce_request d st req).st).blocks h
          = some { bi with nonce_request := some req }) ∧
     (b.sigHash = some h → mapGet st.blocks h = some bi → bi.nonce_request = some req →
        (handle_block_validate_response st (BlockValidateResponse.ok b) cid).2.injected
          = [(determine_vote { bi with valid := some true, nonce_request := none } req
               st.transactions h).2] ∧
        mapGet ((handle_block_validate_response st (BlockValidateResponse.ok b) cid).1).blocks h
          = some (determine_vote { bi with valid := some true, nonce_request := none } req
               st.transactions h).1 ∧
        ((determine_vote { bi with valid := some true, nonce_request := none } req
            st.transactions h).1).nonce_request = none ∧
        ((determine_vote { bi with valid := some true, nonce_request := none } req
            st.transactions h).1).vote
          = some ((determine_vote { bi with valid := some true, nonce_request := none } req
               st.transactions h).2).message) ∧
     (b.sigHash = some h → mapGet st.blocks h = some bi → bi.nonce_request = some req →
        (handle_block_validate_response st (BlockValidateResponse.reject b) cid).2.injected
          = [(determine_vote { bi with valid := some false, nonce_request := none } req
               st.transactions h).2] ∧
        mapGet
            ((handle_block_validate_response st (BlockValidateResponse.reject b) cid).1).blocks h
          = some (determine_vote { bi with valid := some false, nonce_request := none } req
               st.transactions h).1 ∧
        ((determine_vote { bi with valid := some false, nonce_request := none } req
            st.transactions h).1).nonce_request = none ∧
        ((determine_vote { bi with valid := some false, nonce_request := none } req
            st.transactions h).1).vote
          = some ((determine_vote { bi with valid := some false, nonce_request := none } req
               st.transactions h).2).message)) := by
  refine ⟨?_, ?_, ?_, ?_⟩
  · intro hd hh hu
    simp only [validate_nonce_request, hd, hh, hu]
    simp [mapGet_mapInsert_self, BlockInfo.new_with_request]
  · intro hd hh hk hv
    simp only [validate_nonce_request, hd, hh, hk]
    simp [hv, mapGet_mapInsert_self]
  · intro hh hk hnr
    have hd := determine_vote_message { bi with valid := some true, nonce_request := none }
      req st.transactions h
    simp only [handle_block_validate_response, hh, hk, Option.getD_some]
    simp only [signerAfterValid]
    have hnr' : ({ bi with valid := some true } : BlockInfo).nonce_request = some req := hnr
    rw [hnr']
    refine ⟨rfl, ?_, ?_, hd.1⟩
    · exact mapGet_mapInsert_self st.blocks h _
    · rw [hd.2.2.2.1]
  · intro hh hk hnr
    have hd := determine_vote_message { bi with valid := some false, nonce_request := none }
      req st.transactions h
    simp only [handle_block_validate_response, hh, hk, Option.getD_some]
    simp only [signerAfterValid]
    have hnr' : ({ bi with valid := some false } : BlockInfo).nonce_request = some req := hnr
    rw [hnr']
    refine ⟨rfl, ?_, ?_, hd.1⟩
    · exact mapGet_mapInsert_self st.blocks h _
    · rw [hd.2.2.2.1]

/-- Witness for nonce_request_stash_and_replay on the concrete scenarios:
unknown block, known block awaiting its verdict, and both verdict arrivals
over a stashed request. -/
theorem nonce_request_stash_and_replay_witness :
    (validate_nonce_request decodeBlockC st0 reqC).ok = false ∧
    (validate_nonce_request decodeBlockC st0 reqC).submitted = [bC] ∧
    (validate_nonce_request decodeBlockC stKnownC reqC).ok = false ∧
    (handle_block_validate_response stStashC (BlockValidateResponse.ok bC) 1).2.injected
      = [(determine_vote { biStashC with valid := some true, nonce_request := none } reqC
           stStashC.transactions hC).2] ∧
    (handle_block_validate_response stStashC (BlockValidateResponse.reject bC) 1).2.injected
      = [(determine_vote { biStashC with valid := some false, nonce_request := none } reqC
           stStashC.transactions hC).2] := by
  have t1 := nonce_request_stash_and_replay decodeBlockC st0 reqC bC hC (BlockInfo.new bC) 1
  have t2 := nonce_request_stash_and_replay decodeBlockC stKnownC reqC bC hC
    (BlockInfo.new bC) 1
  have t3 := nonce_request_stash_and_replay decodeBlockC stStashC reqC bC hC biStashC 1
  obtain ⟨ha1, ha2, -, -, -⟩ := t1.1 (by decide) (by decide) (by decide)
  obtain ⟨hb1, -, -⟩ := t2.2.1 (by decide) (by decide) (by decide) (by decide)
  obtain ⟨hc1, -, -, -⟩ := t3.2.2.1 (by decide) (by decide) (by decide)
  obtain ⟨hr1, -, -, -⟩ := t3.2.2.2 (by decide) (by decide) (by decide)
  exact ⟨ha1, ha2, hb1, hc1, hr1⟩

/-- Claim C7: given an aggregate key, an active message resolving to a cached
block hash, and a verifying signature, process_signature removes the
BlockInfo, installs the signature into the block, and publishes an Accepted
response exactly when the active message equals the raw 32 byte hash,
otherwise a Rejected response with reason SignedRejection; a failing
signature publishes nothing. -/
theorem process_signature_spec (sigVerify : Nat → Nat → Bytes → Bool)
    (signature key : Nat) (st : RunLoopState) (bh : Bytes) (bi : BlockInfo)
    (hkey : st.aggregate_public_key = some key)
    (hhash : sha512Trunc256FromBytes
        (if 32 < st.coordinator_message.length then st.coordinator_message.take 32
         else st.coordinator_message) = some bh)
    (hbi : mapGet st.blocks bh = some bi)
    (hnd : ((st.blocks).map Prod.fst).Nodup) :
    (sigVerify signature key st.coordinator_message = true →
       mapGet ((process_signature sigVerify signature st).1).blocks bh = none ∧
       (process_signature sigVerify signature st).2 =
         some (if st.coordinator_message = bh then
                 BlockSubmission.accepted { bi.block with signerSignature := signature }
               else
                 BlockSubmission.rejected { bi.block with signerSignature := signature }
                   RejectCode.signedRejection)) ∧
    (sigVerify signature key st.coordinator_message = false →
       (process_signature sigVerify signature st).2 = none) := by
  constructor
  · intro hv
    simp only [process_signature, hkey, hhash, hbi, hv, Bool.not_true, Bool.false_eq_true,
      if_false]
    by_cases hmsg : st.coordinator_message = bh
    · simp only [if_pos hmsg]
      exact ⟨mapGet_mapRemove_self st.blocks bh hnd, trivial⟩
    · simp only [if_neg hmsg]
      exact ⟨mapGet_mapRemove_self st.blocks bh hnd, trivial⟩
  · intro hv
    simp only [process_signature, hkey, hhash, hbi, hv]
    rfl

/-- Witness for process_signature_spec: the concrete verifying signature 1
publishes an acceptance, the non verifying signature 2 publishes nothing. -/
theorem process_signature_spec_witness :
    mapGet ((process_signature sigVerifyC 1 stSigC).1).blocks hC = none ∧
    (process_signature sigVerifyC 1 stSigC).2
      = some (BlockSubmission.accepted { biVotedC.block with signerSignature := 1 }) ∧
    (process_signature sigVerifyC 2 stSigC).2 = none := by
  have t1 := process_signature_spec sigVerifyC 1 1 stSigC hC biVotedC rfl (by decide)
    (by decide) (by decide)
  have t2 := process_signature_spec sigVerifyC 2 1 stSigC hC biVotedC rfl (by decide)
    (by decide) (by decide)
  obtain ⟨h1, h2⟩ := t1.1 (by decide)
  refine ⟨h1, ?_, t2.2 (by decide)⟩
  rw [h2, if_pos (by decide)]

/-- Claim C3 (code bug evaluation): a POST whose body reads as a string but
fails JSON deserialization is answered with no response at all on both
endpoints, while a failing body read is still acknowledged with 200. -/
theorem json_decode_failure_acks_nothing :
    (process_stackerdb_event cidC 0 decodeNone decodeNone decodeNone reqBodyC).1 = [] ∧
    (process_stackerdb_event cidC 0 decodeNone decodeNone decodeNone reqBodyC).2
      = Except.error EventError.deserializeError ∧
    (process_proposal_response decodeNone reqBodyC).1 = [] ∧
    (process_proposal_response decodeNone reqBodyC).2
      = Except.error EventError.deserializeError ∧
    (process_proposal_response decodeNone reqBadReadC).1 = [200] :=
  ⟨rfl, rfl, rfl, rfl, rfl⟩

/-- If executing the command keeps failing from every state satisfying an
invariant, the in-place retry loop never finishes, for any fuel. -/
theorem retry_execute_none (o : CryptoOracle) (command : RunLoopCommand)
    (P : RunLoopState → Prop)
    (hstep : ∀ s, P s → (execute_command o s command).2 = false ∧
        P (execute_command o s command).1) :
    ∀ fuel s, P s → retry_execute o command fuel s = none := by
  intro fuel
  induction fuel with
  | zero => intro s _; rfl
  | succ n ih =>
    intro s hs
    obtain ⟨hf, hp⟩ := hstep s hs
    simp only [retry_execute]
    rw [hf]
    simp only [Bool.false_eq_true, if_false]
    exact ih _ hp

/-- Claim C9: the retry loop inside process_next_command is unbounded: when
the queued command deterministically fails to execute from every reachable
state, no amount of fuel lets process_next_command finish. -/
theorem process_next_command_unbounded (o : CryptoOracle) (command : RunLoopCommand)
    (rest : List RunLoopCommand) (st : RunLoopState) (P : RunLoopState → Prop)
    (hstate : st.state = State.idle)
    (hcmds : st.commands = command :: rest)
    (hP : P { st with commands := rest })
    (hstep : ∀ s, P s → (execute_command o s command).2 = false ∧
        P (execute_command o s command).1) :
    ∀ fuel, process_next_command_fuel o fuel st = none := by
  intro fuel
  unfold process_next_command_fuel
  rw [hstate] at hP ⊢
  rw [hcmds]
  exact retry_execute_none o command P hstep fuel _ hP

/-- Witness for process_next_command_unbounded: a Sign command over a block
already being signed keeps the loop spinning for the concrete fuel 100. -/
theorem process_next_command_unbounded_witness :
    process_next_command_fuel oNoneC 100 stRetryC = none := by
  have hstep : ∀ s, s = { stRetryC with commands := [] } →
      (execute_command oNoneC s (RunLoopCommand.sign bC false none)).2 = false ∧
      (execute_command oNoneC s (RunLoopCommand.sign bC false none)).1
        = { stRetryC with commands := [] } := by
    intro s hs
    subst hs
    exact ⟨by decide, by decide⟩
  exact process_next_command_unbounded oNoneC (RunLoopCommand.sign bC false none) []
    stRetryC (fun s => s = { stRetryC with commands := [] }) rfl rfl rfl hstep 100

/-- Claim C8: calculate_coordinator is a pure function of the key map and the
fetched consensus hash: identical inputs give identical results; on RPC
failure it falls back to signer 0 and its key; on success it hashes each
signer key together with the consensus hash bytes, sorts ascending by digest
and returns the first signer of that order, whose digest is minimal among all
signers. -/
theorem calculate_coordinator_spec (sha256 : Bytes → Bytes) (pkBytes : Nat → Bytes)
    (signers : List (Nat × Nat)) (ch : Bytes) (pk0 : Nat)
    (hnd : (signers.map Prod.fst).Nodup)
    (h0 : lookupK signers 0 = some pk0) :
    calculate_coordinator sha256 pkBytes signers none = some (0, pk0) ∧
    calculate_coordinator sha256 pkBytes signers (some ch)
      = calculate_coordinator sha256 pkBytes signers (some ch) ∧
    (signers ≠ [] → ∃ id pk,
      calculate_coordinator sha256 pkBytes signers (some ch) = some (id, pk) ∧
      (id, pk) ∈ signers ∧
      ∀ p ∈ signers,
        bytesLe (sha256 (pkBytes pk ++ ch)) (sha256 (pkBytes p.2 ++ ch)) = true) := by
  refine ⟨?_, rfl, ?_⟩
  · simp [calculate_coordinator, h0]
  · intro hne
    have hselne : (signers.map fun p => (sha256 (pkBytes p.2 ++ ch), p.1)) ≠ [] := by
      simpa using hne
    have hsne : sortByKey (signers.map fun p => (sha256 (pkBytes p.2 ++ ch), p.1)) ≠ [] :=
      fun hnil => hselne (sortByKey_eq_nil_iff.mp hnil)
    obtain ⟨x, t, hxt⟩ := List.exists_cons_of_ne_nil hsne
    obtain ⟨dg, id⟩ := x
    have hmem : (dg, id) ∈ sortByKey (signers.map fun p => (sha256 (pkBytes p.2 ++ ch), p.1)) := by
      rw [hxt]; exact List.mem_cons_self _ _
    have hmem2 := mem_sortByKey.mp hmem
    obtain ⟨q, hq, hfq⟩ := List.mem_map.mp hmem2
    obtain ⟨qa, qb⟩ := q
    have hq1 : qa = id := congrArg Prod.snd hfq
    have hq2 : sha256 (pkBytes qb ++ ch) = dg := congrArg Prod.fst hfq
    subst hq1
    have hlook : lookupK signers qa = some qb := lookupK_eq_some_of_mem hq hnd
    refine ⟨qa, qb, ?_, hq, ?_⟩
    · simp [calculate_coordinator, h0, hxt, hlook]
    · intro p hp
      have hmemp : (sha256 (pkBytes p.2 ++ ch), p.1)
          ∈ (signers.map fun p => (sha256 (pkBytes p.2 ++ ch), p.1)) :=
        List.mem_map_of_mem _ hp
      have hle := sortByKey_head_le _ (dg, qa) t hxt _ hmemp
      rw [hq2]
      exact hle

/-- Witness for calculate_coordinator_spec on a concrete two signer map. -/
theorem calculate_coordinator_spec_witness :
    calculate_coordinator shaC pkBytesC signersC none = some (0, 5) ∧
    (∃ id pk, calculate_coordinator shaC pkBytesC signersC (some chC) = some (id, pk) ∧
      (id, pk) ∈ signersC ∧
      ∀ p ∈ signersC,
        bytesLe (shaC (pkBytesC pk ++ chC)) (shaC (pkBytesC p.2 ++ chC)) = true) := by
  have t := calculate_coordinator_spec shaC pkBytesC signersC chC 5 (by decide) (by decide)
  exact ⟨t.1, t.2.2 (by decide)⟩

/-- Claim C10: calculate_coordinator is total exactly when the key map has a
signer with id 0 (the unwrap of the signer 0 lookup is evaluated on every
branch, the eager unwrap_or argument included), and under that precondition
the RPC failure fallback returns signer 0 and its key without panicking. -/
theorem calculate_coordinator_total_iff_signer_zero (sha256 : Bytes → Bytes)
    (pkBytes : Nat → Bytes) (signers : List (Nat × Nat)) (tip : Option Bytes) :
    ((calculate_coordinator sha256 pkBytes signers tip).isSome
       = (lookupK signers 0).isSome) ∧
    (∀ pk0, lookupK signers 0 = some pk0 →
       calculate_coordinator sha256 pkBytes signers none = some (0, pk0)) := by
  constructor
  · cases tip with
    | none =>
      cases h0 : lookupK signers 0 <;> simp [calculate_coordinator, h0]
    | some ch =>
      cases h0 : lookupK signers 0 with
      | none => simp [calculate_coordinator, h0]
      | some pk0 =>
        simp only [calculate_coordinator, h0]
        cases hh : (sortByKey (signers.map fun p => (sha256 (pkBytes p.2 ++ ch), p.1))).head? with
        | none => simp [hh]
        | some x =>
          obtain ⟨dg, id⟩ := x
          cases hl : lookupK signers id <;> simp [hh, hl]
  · intro pk0 h0
    simp [calculate_coordinator, h0]

/-- Witness for calculate_coordinator_total_iff_signer_zero at the concrete
map: totality on the success path and the concrete fallback value. -/
theorem calculate_coordinator_total_iff_signer_zero_witness :
    ((calculate_coordinator shaC pkBytesC signersC (some chC)).isSome
       = (lookupK signersC 0).isSome) ∧
    calculate_coordinator shaC pkBytesC signersC none = some (0, 5) := by
  have t := calculate_coordinator_total_iff_signer_zero shaC pkBytesC signersC (some chC)
  exact ⟨t.1, t.2 5 (by decide)⟩

end StacksSigner
